import Mathlib

/-
Verification of the Intcode virtual machine of adventofcode-2019.

Shallow embedding of the two relevant VM variants:
  namespace Day09 — the full VM of src/day09/src/main.rs (relative base,
    growable memory, instruction cache with write invalidation);
  namespace Day07 — the VM of src/day07/src/main.rs (fixed memory,
    mode-specialised opcodes) together with its feedback-loop orchestrator.

Machine-integer conventions: Rust isize cells are modelled as unbounded Int
(the claims under study do not depend on 64-bit signed overflow of cell
arithmetic); the two places where two's-complement wrapping is semantically
load-bearing — the "as usize" casts of operand values and of jump targets —
are modelled exactly, as reduction modulo 2^64 (asUsize below).  Rust panics
(index out of bounds, failed asserts, unreachable arms, the explicit panic
calls of run) are modelled as Except errors.  Vec::resize is limited by the
allocator to isize::MAX bytes; a resize request of more than 2^60 cells
(8 bytes each) can never succeed and is modelled as a capOverflow error.
-/

/-- Rust's "as usize" cast of an isize value: two's complement, i.e. reduction
modulo 2^64 (nonnegative values below 2^64 are unchanged, negative values wrap
to large nonnegative addresses). -/
def asUsize (v : Int) : Nat :=
  (v % (2 ^ 64)).toNat

/-- Results of fallible operations are compared in concrete witnesses. -/
instance {e a : Type} [DecidableEq e] [DecidableEq a] : DecidableEq (Except e a)
  | .ok x, .ok y =>
    if h : x = y then .isTrue (by rw [h]) else .isFalse (by simp [h])
  | .error x, .error y =>
    if h : x = y then .isTrue (by rw [h]) else .isFalse (by simp [h])
  | .ok _, .error _ => .isFalse (by simp)
  | .error _, .ok _ => .isFalse (by simp)

namespace Day09

/-- Parameter mode of a lifted operand (enum Mode of day09). -/
inductive Mode where
  | Positional (addr : Nat)
  | Immediate (imm : Int)
  | Relative (offset : Int)
deriving DecidableEq, Repr

/-- Lifted instructions (enum Opcode of day09). -/
inductive Opcode where
  | Add (p1 p2 p3 : Mode)
  | Mul (p1 p2 p3 : Mode)
  | In (p1 : Mode)
  | Out (p1 : Mode)
  | JumpNonZero (p1 p2 : Mode)
  | JumpZero (p1 p2 : Mode)
  | LessThan (p1 p2 p3 : Mode)
  | Equals (p1 p2 p3 : Mode)
  | AdjustRelativeBase (p1 : Mode)
  | Halt
deriving DecidableEq, Repr

/-- Encoded length of an instruction (Opcode::len of day09). -/
def Opcode.len : Opcode → Nat
  | .In _ | .Out _ | .AdjustRelativeBase _ => 2
  | .JumpNonZero _ _ | .JumpZero _ _ => 3
  | .LessThan _ _ _ | .Equals _ _ _ | .Add _ _ _ | .Mul _ _ _ => 4
  | .Halt => 1

/-- Errors: each constructor models one Rust panic site of day09. -/
inductive VMErr where
  /-- Vec index out of bounds (memory[address] with address = len, or the
  direct memory[addr] read in lift). -/
  | indexOOB (addr : Nat)
  /-- Vec::resize beyond the allocator's capacity limit (address + 1000 cells
  of 8 bytes would exceed isize::MAX bytes), or the usize overflow of
  address + 1000 itself. -/
  | capOverflow (addr : Nat)
  /-- panic in run: "Failed to lift addr at ip" (unknown opcode). -/
  | liftFail (addr : Nat)
  /-- panic: "Cannot execute ... with an immediate dest". -/
  | immDest
  /-- the unreachable arms of the mode matches in lift (mode digit > 2). -/
  | badMode
deriving DecidableEq, Repr

/-- struct Program of day09. The HashMap instruction cache is modelled as an
association list; its iteration order (unspecified for the Rust HashMap) is
fixed to insertion order. -/
structure Program where
  ip : Nat
  memory : List Int
  instructions : List (Nat × Opcode)
  input : List Int
  output : List Int
  halted : Bool
  relative_base : Int
deriving DecidableEq, Repr

/-- Program::from_input after parsing (string splitting is external to the
core; a Program starts at ip 0 with empty cache, queues, and relative base 0). -/
def Program.fromMemory (memory : List Int) : Program :=
  { ip := 0, memory := memory, instructions := [], input := [], output := [],
    halted := false, relative_base := 0 }

/-- program.input.push(value) as used by the callers of the VM. -/
def Program.push_input (p : Program) (v : Int) : Program :=
  { p with input := p.input ++ [v] }

/-- HashMap::get on the cache model. -/
def cacheGet : List (Nat × Opcode) → Nat → Option Opcode
  | [], _ => none
  | (a, w) :: rest, k => if a = k then some w else cacheGet rest k

/-- HashMap::insert on the cache model (replace in place, else append). -/
def cacheIns : List (Nat × Opcode) → Nat → Opcode → List (Nat × Opcode)
  | [], k, v => [(k, v)]
  | (a, w) :: rest, k, v =>
    if a = k then (k, v) :: rest else (a, w) :: cacheIns rest k v

/-- HashMap::remove on the cache model. -/
def cacheRemove : List (Nat × Opcode) → Nat → List (Nat × Opcode)
  | [], _ => []
  | (a, w) :: rest, k =>
    if a = k then cacheRemove rest k else (a, w) :: cacheRemove rest k

/-- The cache scan of Program::write: iterate over the cached entries and
return the start address of the first one whose span [start, start+len)
contains the written address (the Rust loop breaks at the first hit). -/
def cacheScan : List (Nat × Opcode) → Nat → Option Nat
  | [], _ => none
  | (start, op) :: rest, address =>
    if start ≤ address ∧ address < start + op.len then some start
    else cacheScan rest address

/-- The resize step shared by Program::read and Program::write:
if address > memory.len() the memory is resized to address + 1000, zero
filled.  A resize request beyond the Vec capacity limit can never succeed. -/
def Program.grow (p : Program) (address : Nat) : Except VMErr Program :=
  if address > p.memory.length then
    if address + 1000 < 2 ^ 60 then
      .ok { p with
            memory := p.memory ++
              List.replicate (address + 1000 - p.memory.length) 0 }
    else .error (.capOverflow address)
  else .ok p

/-- Program::read of day09: resize if address > len, then index.  Note the
strict comparison: at address = len no resize happens and the index panics. -/
def Program.read (p : Program) (address : Nat) : Except VMErr (Program × Int) := do
  let p ← p.grow address
  match p.memory.get? address with
  | some v => .ok (p, v)
  | none => .error (.indexOOB address)

/-- The memory-update half of Program::write (same strict resize guard,
then memory[address] = value). -/
def Program.writeMem (p : Program) (address : Nat) (value : Int) :
    Except VMErr Program := do
  let p ← p.grow address
  if address < p.memory.length then
    .ok { p with memory := p.memory.set address value }
  else .error (.indexOOB address)

/-- Decoding of a single parameter with its mode digit (the mode match arms of
Program::lift; digit > 2 hits unreachable code).  Positional wraps the raw
isize value with "as usize". -/
def decodeMode (m : Int) (raw : Int) : Except VMErr Mode :=
  if m = 0 then .ok (.Positional (asUsize raw))
  else if m = 1 then .ok (.Immediate raw)
  else if m = 2 then .ok (.Relative raw)
  else .error .badMode

/-- Program::lift of day09.  Reads the raw value directly (memory[addr]),
peels the three mode digits and the two-digit opcode with truncated division
(Rust / and % on isize), reads the operand cells via Program::read, and
caches the decoded instruction.  Returns (state, some op) on success and
(state, none) for an unknown opcode (the caller decides how to fail). -/
def Program.lift (p : Program) (addr : Nat) :
    Except VMErr (Program × Option Opcode) :=
  match p.memory.get? addr with
  | none => .error (.indexOOB addr)
  | some v =>
    let mode3 := v.tdiv 10000
    let v1 := v.tmod 10000
    let mode2 := v1.tdiv 1000
    let v2 := v1.tmod 1000
    let mode1 := v2.tdiv 100
    let opc := v2.tmod 100
    if opc = 1 ∨ opc = 2 ∨ opc = 7 ∨ opc = 8 then do
      let (p, raw1) ← p.read (addr + 1)
      let (p, raw2) ← p.read (addr + 2)
      let (p, raw3) ← p.read (addr + 3)
      let m1 ← decodeMode mode1 raw1
      let m2 ← decodeMode mode2 raw2
      let m3 ← decodeMode mode3 raw3
      let op : Opcode :=
        if opc = 1 then .Add m1 m2 m3
        else if opc = 2 then .Mul m1 m2 m3
        else if opc = 7 then .LessThan m1 m2 m3
        else .Equals m1 m2 m3
      .ok ({ p with instructions := cacheIns p.instructions addr op }, some op)
    else if opc = 3 ∨ opc = 4 ∨ opc = 9 then do
      let (p, raw1) ← p.read (addr + 1)
      let m1 ← decodeMode mode1 raw1
      let op : Opcode :=
        if opc = 3 then .In m1
        else if opc = 4 then .Out m1
        else .AdjustRelativeBase m1
      .ok ({ p with instructions := cacheIns p.instructions addr op }, some op)
    else if opc = 5 ∨ opc = 6 then do
      let (p, raw1) ← p.read (addr + 1)
      let (p, raw2) ← p.read (addr + 2)
      let m1 ← decodeMode mode1 raw1
      let m2 ← decodeMode mode2 raw2
      let op : Opcode :=
        if opc = 5 then .JumpNonZero m1 m2 else .JumpZero m1 m2
      .ok ({ p with instructions := cacheIns p.instructions addr op }, some op)
    else if opc = 99 then
      .ok ({ p with instructions := cacheIns p.instructions addr .Halt },
           some .Halt)
    else
      .ok (p, none)

/-- Program::write of day09: store the value, then scan the cache for the
first entry whose span contains the address; re-lift that entry, replacing it
if the new bytes still decode and removing it if they do not. -/
def Program.write (p : Program) (address : Nat) (value : Int) :
    Except VMErr Program := do
  let p1 ← p.writeMem address value
  match cacheScan p1.instructions address with
  | none => .ok p1
  | some start => do
    let (p2, r) ← p1.lift start
    match r with
    | some op =>
      .ok { p2 with instructions := cacheIns p2.instructions start op }
    | none =>
      .ok { p2 with instructions := cacheRemove p2.instructions start }

/-- Program::read_input: pop the head of the input queue (Vec::remove(0)). -/
def Program.read_input (p : Program) : Option (Int × Program) :=
  match p.input with
  | [] => none
  | v :: rest => some (v, { p with input := rest })

/-- Program::write_output: append to the output queue. -/
def Program.write_output (p : Program) (v : Int) : Program :=
  { p with output := p.output ++ [v] }

/-- Resolution of an operand value in run (read for Positional, the literal
for Immediate, read at relative_base + offset — cast with "as usize" — for
Relative). -/
def Program.resolve (p : Program) (m : Mode) : Except VMErr (Program × Int) :=
  match m with
  | .Positional a => p.read a
  | .Immediate v => .ok (p, v)
  | .Relative r => p.read (asUsize (p.relative_base + r))

/-- Resolution of a destination operand in run: Positional and Relative give
an address, Immediate panics ("Cannot execute ... with an immediate dest"). -/
def Program.destAddr (p : Program) (m : Mode) : Except VMErr Nat :=
  match m with
  | .Positional a => .ok a
  | .Immediate _ => .error .immDest
  | .Relative r => .ok (asUsize (p.relative_base + r))

/-- Outcome of one iteration of run's loop: continue looping, or break out
(break on Halt and on input starvation). -/
inductive StepRes where
  | next (p : Program)
  | brk (p : Program)
deriving DecidableEq, Repr

/-- The instruction fetch of run: consult the cache at ip, lift on a miss;
a lift that reports an unknown opcode makes run panic
("Failed to lift addr at ip"). -/
def Program.fetch (p : Program) : Except VMErr (Program × Opcode) :=
  match cacheGet p.instructions p.ip with
  | some op => .ok (p, op)
  | none =>
    match p.lift p.ip with
    | .ok (q, some op) => .ok (q, op)
    | .ok (_, none) => .error (.liftFail p.ip)
    | .error e => .error e

/-- The dispatch of one fetched instruction (the match of run's loop body). -/
def Program.exec (p : Program) (op : Opcode) : Except VMErr StepRes :=
  match op with
  | .Add m1 m2 md => do
    let (p, v1) ← p.resolve m1
    let (p, v2) ← p.resolve m2
    let d ← p.destAddr md
    let p ← p.write d (v1 + v2)
    .ok (.next { p with ip := p.ip + 4 })
  | .Mul m1 m2 md => do
    let (p, v1) ← p.resolve m1
    let (p, v2) ← p.resolve m2
    let d ← p.destAddr md
    let p ← p.write d (v1 * v2)
    .ok (.next { p with ip := p.ip + 4 })
  | .In md =>
    match p.read_input with
    | none => .ok (.brk p)
    | some (v, p) => do
      let d ← p.destAddr md
      let p ← p.write d v
      .ok (.next { p with ip := p.ip + 2 })
  | .Out m1 => do
    let (p, v) ← p.resolve m1
    .ok (.next { p.write_output v with ip := p.ip + 2 })
  | .JumpNonZero m1 m2 => do
    let (p, v1) ← p.resolve m1
    let (p, v2) ← p.resolve m2
    if v1 ≠ 0 then .ok (.next { p with ip := asUsize v2 })
    else .ok (.next { p with ip := p.ip + 3 })
  | .JumpZero m1 m2 => do
    let (p, v1) ← p.resolve m1
    let (p, v2) ← p.resolve m2
    if v1 = 0 then .ok (.next { p with ip := asUsize v2 })
    else .ok (.next { p with ip := p.ip + 3 })
  | .LessThan m1 m2 md => do
    let (p, v1) ← p.resolve m1
    let (p, v2) ← p.resolve m2
    let d ← p.destAddr md
    let p ← p.write d (if v1 < v2 then 1 else 0)
    .ok (.next { p with ip := p.ip + 4 })
  | .Equals m1 m2 md => do
    let (p, v1) ← p.resolve m1
    let (p, v2) ← p.resolve m2
    let d ← p.destAddr md
    let p ← p.write d (if v1 = v2 then 1 else 0)
    .ok (.next { p with ip := p.ip + 4 })
  | .AdjustRelativeBase m1 => do
    let (p, v) ← p.resolve m1
    .ok (.next { p with relative_base := p.relative_base + v, ip := p.ip + 2 })
  | .Halt => .ok (.brk { p with halted := true })

/-- One iteration of run's loop: fetch then dispatch. -/
def Program.step (p : Program) : Except VMErr StepRes := do
  let (q, op) ← p.fetch
  q.exec op

/-- Result of a call to Program::run.  ok is a normal return (Halt executed,
or input starvation); panic is a Rust panic; timeout means the modelling fuel
ran out while the loop was still running. -/
inductive RunRes where
  | ok (p : Program)
  | panic (e : VMErr)
  | timeout
deriving DecidableEq, Repr

/-- Program::run of day09 (fuel-indexed: the Rust loop is unbounded). -/
def Program.run : Program → Nat → RunRes
  | _, 0 => .timeout
  | p, fuel + 1 =>
    match p.step with
    | .error e => .panic e
    | .ok (.next q) => q.run fuel
    | .ok (.brk q) => .ok q

/-- The Program states reachable through the public surface: construction,
input pushes, and completed run calls. -/
inductive Reachable : Program → Prop where
  | init (memory : List Int) : Reachable (Program.fromMemory memory)
  | push (p : Program) (v : Int) (h : Reachable p) : Reachable (p.push_input v)
  | run (p : Program) (fuel : Nat) (q : Program) (h : Reachable p)
      (hr : p.run fuel = .ok q) : Reachable q

end Day09

namespace Day09

/-! ### Cache model lemmas -/

theorem cacheGet_cacheIns_self (l : List (Nat × Opcode)) (k : Nat) (v : Opcode) :
    cacheGet (cacheIns l k v) k = some v := by
  induction l with
  | nil => simp [cacheIns, cacheGet]
  | cons e rest ih =>
    obtain ⟨a, w⟩ := e
    simp only [cacheIns]
    split
    · simp [cacheGet]
    · rename_i hak
      simp only [cacheGet]
      rw [if_neg hak]
      exact ih

theorem cacheGet_cacheIns_ne (l : List (Nat × Opcode)) (k : Nat) (v : Opcode)
    (s : Nat) (h : s ≠ k) : cacheGet (cacheIns l k v) s = cacheGet l s := by
  induction l with
  | nil =>
    simp only [cacheIns, cacheGet]
    rw [if_neg (by omega)]
  | cons e rest ih =>
    obtain ⟨a, w⟩ := e
    simp only [cacheIns]
    split
    · rename_i hak
      simp only [cacheGet]
      rw [if_neg (by omega), if_neg (by omega)]
    · simp only [cacheGet]
      split
      · rfl
      · exact ih

theorem cacheGet_cacheRemove_self (l : List (Nat × Opcode)) (k : Nat) :
    cacheGet (cacheRemove l k) k = none := by
  induction l with
  | nil => simp [cacheRemove, cacheGet]
  | cons e rest ih =>
    obtain ⟨a, w⟩ := e
    simp only [cacheRemove]
    split
    · exact ih
    · rename_i hak
      simp only [cacheGet]
      rw [if_neg hak]
      exact ih

theorem cacheGet_cacheRemove_ne (l : List (Nat × Opcode)) (k : Nat)
    (s : Nat) (h : s ≠ k) : cacheGet (cacheRemove l k) s = cacheGet l s := by
  induction l with
  | nil => simp [cacheRemove]
  | cons e rest ih =>
    obtain ⟨a, w⟩ := e
    simp only [cacheRemove]
    split
    · rename_i hak
      rw [ih]
      simp only [cacheGet]
      rw [if_neg (by omega)]
    · simp only [cacheGet]
      split
      · rfl
      · exact ih

/-! ### Frame lemmas for the memory operations -/

/-- grow only appends zero cells to memory; every other field is unchanged. -/
theorem grow_spec {p : Program} {a : Nat} {q : Program}
    (h : p.grow a = .ok q) :
    (∃ k, q.memory = p.memory ++ List.replicate k 0) ∧
    q.ip = p.ip ∧ q.instructions = p.instructions ∧ q.input = p.input ∧
    q.output = p.output ∧ q.halted = p.halted ∧
    q.relative_base = p.relative_base := by
  unfold Program.grow at h
  split at h
  · split at h
    · exact ⟨⟨_, by cases h; rfl⟩, by cases h; exact ⟨rfl, rfl, rfl, rfl, rfl, rfl⟩⟩
    · cases h
  · cases h
    exact ⟨⟨0, by simp⟩, rfl, rfl, rfl, rfl, rfl, rfl⟩

/-- grow is the identity at or below the current length. -/
theorem grow_of_le {p : Program} {a : Nat} (h : a ≤ p.memory.length) :
    p.grow a = .ok p := by
  unfold Program.grow
  rw [if_neg (by omega)]

/-- A read at an address at or below the current length does not change the
state; it succeeds exactly on in-bounds addresses. -/
theorem read_of_le {p : Program} {a : Nat} (h : a ≤ p.memory.length)
    {q : Program} {v : Int} (hr : p.read a = .ok (q, v)) :
    q = p ∧ p.memory.get? a = some v ∧ a < p.memory.length := by
  unfold Program.read at hr
  rw [grow_of_le h] at hr
  simp only [bind, Except.bind] at hr
  cases hv : p.memory.get? a with
  | none => rw [hv] at hr; cases hr
  | some w =>
    rw [hv] at hr
    cases hr
    exact ⟨rfl, rfl, (List.get?_eq_some.mp hv).1⟩

/-- read only appends zero cells to memory; every other field is unchanged. -/
theorem read_spec {p : Program} {a : Nat} {q : Program} {v : Int}
    (h : p.read a = .ok (q, v)) :
    (∃ k, q.memory = p.memory ++ List.replicate k 0) ∧
    q.ip = p.ip ∧ q.instructions = p.instructions ∧ q.input = p.input ∧
    q.output = p.output ∧ q.halted = p.halted ∧
    q.relative_base = p.relative_base := by
  unfold Program.read at h
  cases hg : p.grow a with
  | error e => rw [hg] at h; cases h
  | ok p1 =>
    rw [hg] at h
    simp only [bind, Except.bind] at h
    cases hv : p1.memory.get? a with
    | none => rw [hv] at h; cases h
    | some w =>
      rw [hv] at h
      cases h
      exact grow_spec hg

/-- writeMem changes only memory; every other field is unchanged. -/
theorem writeMem_spec {p : Program} {a : Nat} {v : Int} {q : Program}
    (h : p.writeMem a v = .ok q) :
    q.ip = p.ip ∧ q.instructions = p.instructions ∧ q.input = p.input ∧
    q.output = p.output ∧ q.halted = p.halted ∧
    q.relative_base = p.relative_base := by
  unfold Program.writeMem at h
  cases hg : p.grow a with
  | error e => rw [hg] at h; cases h
  | ok p1 =>
    rw [hg] at h
    simp only [bind, Except.bind] at h
    split at h
    · cases h
      obtain ⟨-, h2, h3, h4, h5, h6, h7⟩ := grow_spec hg
      exact ⟨h2, h3, h4, h5, h6, h7⟩
    · cases h

/-- The full conclusion of lift_spec, packaged for the success case where the
decoded op was inserted at addr. -/
theorem lift_post (p : Program) (a : Nat) (op : Opcode) :
    ∀ q : Program, ∀ r : Option Opcode,
    ({ p with instructions := cacheIns p.instructions a op } : Program) = q →
    (some op : Option Opcode) = r →
    q.memory = p.memory ∧ q.ip = p.ip ∧ q.input = p.input ∧
    q.output = p.output ∧ q.halted = p.halted ∧
    q.relative_base = p.relative_base ∧
    (∀ s, s ≠ a → cacheGet q.instructions s = cacheGet p.instructions s) ∧
    (∀ op2, r = some op2 → cacheGet q.instructions a = some op2) ∧
    (r = none → q = p) := by
  intro q r hq hr
  subst hq
  subst hr
  refine ⟨rfl, rfl, rfl, rfl, rfl, rfl, ?_, ?_, ?_⟩
  · intro s hs
    exact cacheGet_cacheIns_ne _ _ _ _ hs
  · intro op2 hop2
    cases hop2
    exact cacheGet_cacheIns_self _ _ _
  · intro hcon
    cases hcon

/-- lift never changes memory or any non-cache field, and only touches the
cache at its own address: the reads of the operand cells of a successfully
decoded instruction are always in bounds, because the cells are consecutive
and the first out-of-bounds cell (at exactly the current length) makes the
read panic instead of growing. -/
theorem lift_spec {p : Program} {a : Nat} {q : Program} {r : Option Opcode}
    (h : p.lift a = .ok (q, r)) :
    q.memory = p.memory ∧ q.ip = p.ip ∧ q.input = p.input ∧
    q.output = p.output ∧ q.halted = p.halted ∧
    q.relative_base = p.relative_base ∧
    (∀ s, s ≠ a → cacheGet q.instructions s = cacheGet p.instructions s) ∧
    (∀ op2, r = some op2 → cacheGet q.instructions a = some op2) ∧
    (r = none → q = p) := by
  unfold Program.lift at h
  cases hv : p.memory.get? a with
  | none => rw [hv] at h; simp at h
  | some v =>
    rw [hv] at h
    have ha : a < p.memory.length := (List.get?_eq_some.mp hv).1
    simp only [] at h
    split at h
    · -- opc in {1, 2, 7, 8}: three operand reads, three mode decodes
      cases h1 : p.read (a + 1) with
      | error e => rw [h1] at h; simp only [bind, Except.bind] at h; simp at h
      | ok x1 =>
        obtain ⟨p1, raw1⟩ := x1
        obtain ⟨hp1, -, ha1⟩ := read_of_le (by omega) h1
        rw [h1, hp1] at h
        simp only [bind, Except.bind] at h
        cases h2 : p.read (a + 2) with
        | error e => rw [h2] at h; simp only [bind, Except.bind] at h; simp at h
        | ok x2 =>
          obtain ⟨p2, raw2⟩ := x2
          obtain ⟨hp2, -, ha2⟩ := read_of_le (by omega) h2
          rw [h2, hp2] at h
          simp only [bind, Except.bind] at h
          cases h3 : p.read (a + 3) with
          | error e => rw [h3] at h; simp only [bind, Except.bind] at h; simp at h
          | ok x3 =>
            obtain ⟨p3, raw3⟩ := x3
            obtain ⟨hp3, -, -⟩ := read_of_le (by omega) h3
            rw [h3, hp3] at h
            simp only [bind, Except.bind] at h
            cases hm1 : decodeMode (((v.tmod 10000).tmod 1000).tdiv 100) raw1 with
            | error e => rw [hm1] at h; simp only [bind, Except.bind] at h; simp at h
            | ok m1 =>
              rw [hm1] at h
              simp only [bind, Except.bind] at h
              cases hm2 : decodeMode ((v.tmod 10000).tdiv 1000) raw2 with
              | error e => rw [hm2] at h; simp only [bind, Except.bind] at h; simp at h
              | ok m2 =>
                rw [hm2] at h
                simp only [bind, Except.bind] at h
                cases hm3 : decodeMode (v.tdiv 10000) raw3 with
                | error e => rw [hm3] at h; simp only [bind, Except.bind] at h; simp at h
                | ok m3 =>
                  rw [hm3] at h
                  simp only [bind, Except.bind, Except.ok.injEq, Prod.mk.injEq] at h
                  exact lift_post p a _ q r h.1 h.2
    · split at h
      · -- opc in {3, 4, 9}: one operand read, one mode decode
        cases h1 : p.read (a + 1) with
        | error e => rw [h1] at h; simp only [bind, Except.bind] at h; simp at h
        | ok x1 =>
          obtain ⟨p1, raw1⟩ := x1
          obtain ⟨hp1, -, ha1⟩ := read_of_le (by omega) h1
          rw [h1, hp1] at h
          simp only [bind, Except.bind] at h
          cases hm1 : decodeMode (((v.tmod 10000).tmod 1000).tdiv 100) raw1 with
          | error e => rw [hm1] at h; simp only [bind, Except.bind] at h; simp at h
          | ok m1 =>
            rw [hm1] at h
            simp only [bind, Except.bind, Except.ok.injEq, Prod.mk.injEq] at h
            exact lift_post p a _ q r h.1 h.2
      · split at h
        · -- opc in {5, 6}: two operand reads, two mode decodes
          cases h1 : p.read (a + 1) with
          | error e => rw [h1] at h; simp only [bind, Except.bind] at h; simp at h
          | ok x1 =>
            obtain ⟨p1, raw1⟩ := x1
            obtain ⟨hp1, -, ha1⟩ := read_of_le (by omega) h1
            rw [h1, hp1] at h
            simp only [bind, Except.bind] at h
            cases h2 : p.read (a + 2) with
            | error e => rw [h2] at h; simp only [bind, Except.bind] at h; simp at h
            | ok x2 =>
              obtain ⟨p2, raw2⟩ := x2
              obtain ⟨hp2, -, ha2⟩ := read_of_le (by omega) h2
              rw [h2, hp2] at h
              simp only [bind, Except.bind] at h
              cases hm1 : decodeMode (((v.tmod 10000).tmod 1000).tdiv 100) raw1 with
              | error e => rw [hm1] at h; simp only [bind, Except.bind] at h; simp at h
              | ok m1 =>
                rw [hm1] at h
                simp only [bind, Except.bind] at h
                cases hm2 : decodeMode ((v.tmod 10000).tdiv 1000) raw2 with
                | error e => rw [hm2] at h; simp only [bind, Except.bind] at h; simp at h
                | ok m2 =>
                  rw [hm2] at h
                  simp only [bind, Except.bind, Except.ok.injEq, Prod.mk.injEq] at h
                  exact lift_post p a _ q r h.1 h.2
        · split at h
          · -- opc = 99: Halt
            simp only [Except.ok.injEq, Prod.mk.injEq] at h
            exact lift_post p a .Halt q r h.1 h.2
          · -- unknown opcode: state unchanged, decode reports none
            simp only [Except.ok.injEq, Prod.mk.injEq] at h
            obtain ⟨hq, hr⟩ := h
            subst hq
            refine ⟨rfl, rfl, rfl, rfl, rfl, rfl, fun s _ => rfl, ?_, fun _ => rfl⟩
            intro op2 hop2
            rw [← hr] at hop2
            cases hop2

/-- Operand resolution leaves every field but memory unchanged (the reads can
only append zero cells). -/
theorem resolve_spec {p : Program} {m : Mode} {q : Program} {v : Int}
    (h : p.resolve m = .ok (q, v)) :
    q.ip = p.ip ∧ q.instructions = p.instructions ∧ q.input = p.input ∧
    q.output = p.output ∧ q.halted = p.halted ∧
    q.relative_base = p.relative_base := by
  cases m with
  | Positional a =>
    obtain ⟨-, h2, h3, h4, h5, h6, h7⟩ := read_spec h
    exact ⟨h2, h3, h4, h5, h6, h7⟩
  | Immediate w =>
    unfold Program.resolve at h
    cases h
    exact ⟨rfl, rfl, rfl, rfl, rfl, rfl⟩
  | Relative r =>
    obtain ⟨-, h2, h3, h4, h5, h6, h7⟩ := read_spec h
    exact ⟨h2, h3, h4, h5, h6, h7⟩

/-- write (including its cache-repair scan) leaves the instruction pointer,
both queues, the halt flag and the relative base unchanged. -/
theorem write_spec {p : Program} {a : Nat} {v : Int} {q : Program}
    (h : p.write a v = .ok q) :
    q.ip = p.ip ∧ q.input = p.input ∧ q.output = p.output ∧
    q.halted = p.halted ∧ q.relative_base = p.relative_base := by
  unfold Program.write at h
  cases hw : p.writeMem a v with
  | error e => rw [hw] at h; simp only [bind, Except.bind] at h; simp at h
  | ok p1 =>
    rw [hw] at h
    simp only [bind, Except.bind] at h
    obtain ⟨w1, -, w3, w4, w5, w6⟩ := writeMem_spec hw
    cases hs : cacheScan p1.instructions a with
    | none =>
      rw [hs] at h
      simp only [] at h
      cases h
      exact ⟨w1, w3, w4, w5, w6⟩
    | some start =>
      rw [hs] at h
      simp only [] at h
      cases hl : p1.lift start with
      | error e => rw [hl] at h; simp only [bind, Except.bind] at h; simp at h
      | ok x =>
        obtain ⟨p2, r⟩ := x
        rw [hl] at h
        simp only [bind, Except.bind] at h
        obtain ⟨-, l2, l3, l4, l5, l6, -, -, -⟩ := lift_spec hl
        cases r with
        | some op =>
          simp only [Except.ok.injEq] at h
          subst h
          exact ⟨l2.trans w1, l3.trans w3, l4.trans w4, l5.trans w5, l6.trans w6⟩
        | none =>
          simp only [Except.ok.injEq] at h
          subst h
          exact ⟨l2.trans w1, l3.trans w3, l4.trans w4, l5.trans w5, l6.trans w6⟩

/-- The fetch of run leaves every non-cache field unchanged and guarantees
that the returned instruction is cached at the current instruction pointer. -/
theorem fetch_spec {p : Program} {q : Program} {op : Opcode}
    (h : p.fetch = .ok (q, op)) :
    q.memory = p.memory ∧ q.ip = p.ip ∧ q.input = p.input ∧
    q.output = p.output ∧ q.halted = p.halted ∧
    q.relative_base = p.relative_base ∧
    cacheGet q.instructions p.ip = some op := by
  unfold Program.fetch at h
  cases hc : cacheGet p.instructions p.ip with
  | some op2 =>
    rw [hc] at h
    cases h
    exact ⟨rfl, rfl, rfl, rfl, rfl, rfl, hc⟩
  | none =>
    rw [hc] at h
    cases hl : p.lift p.ip with
    | error e => rw [hl] at h; simp at h
    | ok x =>
      obtain ⟨q2, r⟩ := x
      rw [hl] at h
      cases r with
      | none => simp at h
      | some op2 =>
        simp only [Except.ok.injEq, Prod.mk.injEq] at h
        obtain ⟨hq, hop⟩ := h
        subst hq
        subst hop
        obtain ⟨l1, l2, l3, l4, l5, l6, -, l8, -⟩ := lift_spec hl
        exact ⟨l1, l2, l3, l4, l5, l6, l8 _ rfl⟩

/-- read_input pops the head of the input queue and changes nothing else. -/
theorem read_input_spec {p : Program} {v : Int} {q : Program}
    (h : p.read_input = some (v, q)) :
    p.input = v :: q.input ∧ q.ip = p.ip ∧ q.memory = p.memory ∧
    q.instructions = p.instructions ∧ q.output = p.output ∧
    q.halted = p.halted ∧ q.relative_base = p.relative_base := by
  unfold Program.read_input at h
  cases hin : p.input with
  | nil => rw [hin] at h; simp at h
  | cons w rest =>
    rw [hin] at h
    simp only [Option.some.injEq, Prod.mk.injEq] at h
    obtain ⟨hv, hq⟩ := h
    subst hv
    subst hq
    exact ⟨rfl, rfl, rfl, rfl, rfl, rfl, rfl⟩

/-- Classification of one dispatch: a continuing step preserves the halt flag;
a break is either input starvation (state unchanged, instruction an In, input
empty) or the Halt instruction (which only sets the halt flag). -/
theorem exec_spec {p : Program} {op : Opcode} {r : StepRes}
    (h : p.exec op = .ok r) :
    (∀ qq, r = .next qq → qq.halted = p.halted) ∧
    (∀ qq, r = .brk qq →
      (qq = p ∧ p.input = [] ∧ ∃ d, op = .In d) ∨
      (op = .Halt ∧ qq = { p with halted := true })) := by
  cases op with
  | Add m1 m2 md =>
    simp only [Program.exec] at h
    cases r1 : p.resolve m1 with
    | error e => rw [r1] at h; simp only [bind, Except.bind] at h; simp at h
    | ok x1 =>
      obtain ⟨p1, v1⟩ := x1
      rw [r1] at h
      simp only [bind, Except.bind] at h
      cases r2 : p1.resolve m2 with
      | error e => rw [r2] at h; simp only [bind, Except.bind] at h; simp at h
      | ok x2 =>
        obtain ⟨p2, v2⟩ := x2
        rw [r2] at h
        simp only [bind, Except.bind] at h
        cases hd : p2.destAddr md with
        | error e => rw [hd] at h; simp only [bind, Except.bind] at h; simp at h
        | ok d =>
          rw [hd] at h
          simp only [bind, Except.bind] at h
          cases hw : p2.write d (v1 + v2) with
          | error e => rw [hw] at h; simp only [bind, Except.bind] at h; simp at h
          | ok w =>
            rw [hw] at h
            simp only [bind, Except.bind, Except.ok.injEq] at h
            subst h
            constructor
            · intro qq hq
              cases hq
              show w.halted = p.halted
              rw [(write_spec hw).2.2.2.1, (resolve_spec r2).2.2.2.2.1,
                  (resolve_spec r1).2.2.2.2.1]
            · intro qq hq
              simp at hq
  | Mul m1 m2 md =>
    simp only [Program.exec] at h
    cases r1 : p.resolve m1 with
    | error e => rw [r1] at h; simp only [bind, Except.bind] at h; simp at h
    | ok x1 =>
      obtain ⟨p1, v1⟩ := x1
      rw [r1] at h
      simp only [bind, Except.bind] at h
      cases r2 : p1.resolve m2 with
      | error e => rw [r2] at h; simp only [bind, Except.bind] at h; simp at h
      | ok x2 =>
        obtain ⟨p2, v2⟩ := x2
        rw [r2] at h
        simp only [bind, Except.bind] at h
        cases hd : p2.destAddr md with
        | error e => rw [hd] at h; simp only [bind, Except.bind] at h; simp at h
        | ok d =>
          rw [hd] at h
          simp only [bind, Except.bind] at h
          cases hw : p2.write d (v1 * v2) with
          | error e => rw [hw] at h; simp only [bind, Except.bind] at h; simp at h
          | ok w =>
            rw [hw] at h
            simp only [bind, Except.bind, Except.ok.injEq] at h
            subst h
            constructor
            · intro qq hq
              cases hq
              show w.halted = p.halted
              rw [(write_spec hw).2.2.2.1, (resolve_spec r2).2.2.2.2.1,
                  (resolve_spec r1).2.2.2.2.1]
            · intro qq hq
              simp at hq
  | In md =>
    simp only [Program.exec] at h
    cases hri : p.read_input with
    | none =>
      rw [hri] at h
      simp only [Except.ok.injEq] at h
      subst h
      constructor
      · intro qq hq
        simp at hq
      · intro qq hq
        cases hq
        refine Or.inl ⟨rfl, ?_, md, rfl⟩
        unfold Program.read_input at hri
        cases hin : p.input with
        | nil => rfl
        | cons w rest => rw [hin] at hri; simp at hri
    | some x =>
      obtain ⟨v, p1⟩ := x
      rw [hri] at h
      simp only [] at h
      cases hd : p1.destAddr md with
      | error e => rw [hd] at h; simp only [bind, Except.bind] at h; simp at h
      | ok d =>
        rw [hd] at h
        simp only [bind, Except.bind] at h
        cases hw : p1.write d v with
        | error e => rw [hw] at h; simp only [bind, Except.bind] at h; simp at h
        | ok w =>
          rw [hw] at h
          simp only [bind, Except.bind, Except.ok.injEq] at h
          subst h
          constructor
          · intro qq hq
            cases hq
            show w.halted = p.halted
            rw [(write_spec hw).2.2.2.1, (read_input_spec hri).2.2.2.2.2.1]
          · intro qq hq
            simp at hq
  | Out m1 =>
    simp only [Program.exec] at h
    cases r1 : p.resolve m1 with
    | error e => rw [r1] at h; simp only [bind, Except.bind] at h; simp at h
    | ok x1 =>
      obtain ⟨p1, v⟩ := x1
      rw [r1] at h
      simp only [bind, Except.bind, Except.ok.injEq] at h
      subst h
      constructor
      · intro qq hq
        cases hq
        show (p1.write_output v).halted = p.halted
        unfold Program.write_output
        exact (resolve_spec r1).2.2.2.2.1
      · intro qq hq
        simp at hq
  | JumpNonZero m1 m2 =>
    simp only [Program.exec] at h
    cases r1 : p.resolve m1 with
    | error e => rw [r1] at h; simp only [bind, Except.bind] at h; simp at h
    | ok x1 =>
      obtain ⟨p1, v1⟩ := x1
      rw [r1] at h
      simp only [bind, Except.bind] at h
      cases r2 : p1.resolve m2 with
      | error e => rw [r2] at h; simp only [bind, Except.bind] at h; simp at h
      | ok x2 =>
        obtain ⟨p2, v2⟩ := x2
        rw [r2] at h
        simp only [bind, Except.bind] at h
        split at h <;>
        · simp only [Except.ok.injEq] at h
          subst h
          constructor
          · intro qq hq
            cases hq
            show p2.halted = p.halted
            rw [(resolve_spec r2).2.2.2.2.1, (resolve_spec r1).2.2.2.2.1]
          · intro qq hq
            simp at hq
  | JumpZero m1 m2 =>
    simp only [Program.exec] at h
    cases r1 : p.resolve m1 with
    | error e => rw [r1] at h; simp only [bind, Except.bind] at h; simp at h
    | ok x1 =>
      obtain ⟨p1, v1⟩ := x1
      rw [r1] at h
      simp only [bind, Except.bind] at h
      cases r2 : p1.resolve m2 with
      | error e => rw [r2] at h; simp only [bind, Except.bind] at h; simp at h
      | ok x2 =>
        obtain ⟨p2, v2⟩ := x2
        rw [r2] at h
        simp only [bind, Except.bind] at h
        split at h <;>
        · simp only [Except.ok.injEq] at h
          subst h
          constructor
          · intro qq hq
            cases hq
            show p2.halted = p.halted
            rw [(resolve_spec r2).2.2.2.2.1, (resolve_spec r1).2.2.2.2.1]
          · intro qq hq
            simp at hq
  | LessThan m1 m2 md =>
    simp only [Program.exec] at h
    cases r1 : p.resolve m1 with
    | error e => rw [r1] at h; simp only [bind, Except.bind] at h; simp at h
    | ok x1 =>
      obtain ⟨p1, v1⟩ := x1
      rw [r1] at h
      simp only [bind, Except.bind] at h
      cases r2 : p1.resolve m2 with
      | error e => rw [r2] at h; simp only [bind, Except.bind] at h; simp at h
      | ok x2 =>
        obtain ⟨p2, v2⟩ := x2
        rw [r2] at h
        simp only [bind, Except.bind] at h
        cases hd : p2.destAddr md with
        | error e => rw [hd] at h; simp only [bind, Except.bind] at h; simp at h
        | ok d =>
          rw [hd] at h
          simp only [bind, Except.bind] at h
          cases hw : p2.write d (if v1 < v2 then 1 else 0) with
          | error e => rw [hw] at h; simp only [bind, Except.bind] at h; simp at h
          | ok w =>
            rw [hw] at h
            simp only [bind, Except.bind, Except.ok.injEq] at h
            subst h
            constructor
            · intro qq hq
              cases hq
              show w.halted = p.halted
              rw [(write_spec hw).2.2.2.1, (resolve_spec r2).2.2.2.2.1,
                  (resolve_spec r1).2.2.2.2.1]
            · intro qq hq
              simp at hq
  | Equals m1 m2 md =>
    simp only [Program.exec] at h
    cases r1 : p.resolve m1 with
    | error e => rw [r1] at h; simp only [bind, Except.bind] at h; simp at h
    | ok x1 =>
      obtain ⟨p1, v1⟩ := x1
      rw [r1] at h
      simp only [bind, Except.bind] at h
      cases r2 : p1.resolve m2 with
      | error e => rw [r2] at h; simp only [bind, Except.bind] at h; simp at h
      | ok x2 =>
        obtain ⟨p2, v2⟩ := x2
        rw [r2] at h
        simp only [bind, Except.bind] at h
        cases hd : p2.destAddr md with
        | error e => rw [hd] at h; simp only [bind, Except.bind] at h; simp at h
        | ok d =>
          rw [hd] at h
          simp only [bind, Except.bind] at h
          cases hw : p2.write d (if v1 = v2 then 1 else 0) with
          | error e => rw [hw] at h; simp only [bind, Except.bind] at h; simp at h
          | ok w =>
            rw [hw] at h
            simp only [bind, Except.bind, Except.ok.injEq] at h
            subst h
            constructor
            · intro qq hq
              cases hq
              show w.halted = p.halted
              rw [(write_spec hw).2.2.2.1, (resolve_spec r2).2.2.2.2.1,
                  (resolve_spec r1).2.2.2.2.1]
            · intro qq hq
              simp at hq
  | AdjustRelativeBase m1 =>
    simp only [Program.exec] at h
    cases r1 : p.resolve m1 with
    | error e => rw [r1] at h; simp only [bind, Except.bind] at h; simp at h
    | ok x1 =>
      obtain ⟨p1, v⟩ := x1
      rw [r1] at h
      simp only [bind, Except.bind, Except.ok.injEq] at h
      subst h
      constructor
      · intro qq hq
        cases hq
        show p1.halted = p.halted
        exact (resolve_spec r1).2.2.2.2.1
      · intro qq hq
        simp at hq
  | Halt =>
    simp only [Program.exec, Except.ok.injEq] at h
    subst h
    constructor
    · intro qq hq
      simp at hq
    · intro qq hq
      cases hq
      exact Or.inr ⟨rfl, rfl⟩

/-- A cache hit fully determines the fetch. -/
theorem fetch_of_cacheGet {p : Program} {op : Opcode}
    (hc : cacheGet p.instructions p.ip = some op) : p.fetch = .ok (p, op) := by
  unfold Program.fetch
  rw [hc]

/-- The run-loop invariant behind the terminal-halt property: whenever the
halt flag is set, the Halt instruction is cached at the instruction pointer. -/
def HaltInv (p : Program) : Prop :=
  p.halted = true → cacheGet p.instructions p.ip = some .Halt

/-- Eta step: re-setting an already-set halt flag is the identity. -/
theorem set_halted_eta {p : Program} (h : p.halted = true) :
    ({ p with halted := true } : Program) = p := by
  cases p
  simp only at h
  rw [h]

theorem step_inv {p : Program} {r : StepRes} (hi : HaltInv p)
    (h : p.step = .ok r) :
    (∀ q, r = .next q → HaltInv q) ∧ (∀ q, r = .brk q → HaltInv q) := by
  unfold Program.step at h
  cases hf : p.fetch with
  | error e => rw [hf] at h; simp only [bind, Except.bind] at h; simp at h
  | ok x =>
    obtain ⟨q0, op⟩ := x
    rw [hf] at h
    simp only [bind, Except.bind] at h
    obtain ⟨f1, f2, f3, f4, f5, f6, f7⟩ := fetch_spec hf
    obtain ⟨en, eb⟩ := exec_spec h
    constructor
    · intro q hq hhq
      exfalso
      have hq0 : q0.halted = true := by rw [← en q hq]; exact hhq
      have hp : p.halted = true := by rw [← f5]; exact hq0
      have hc := hi hp
      have hf2 := fetch_of_cacheGet hc
      rw [hf] at hf2
      simp only [Except.ok.injEq, Prod.mk.injEq] at hf2
      obtain ⟨hq0p, hop⟩ := hf2
      subst hop
      subst hq0p
      simp only [Program.exec, Except.ok.injEq] at h
      subst h
      simp at hq
    · intro q hq
      cases eb q hq with
      | inl hstarve =>
        obtain ⟨hqq0, hinp, d, hopin⟩ := hstarve
        subst hqq0
        intro hhq
        exfalso
        have hp : p.halted = true := by rw [← f5]; exact hhq
        have hc := hi hp
        have hf2 := fetch_of_cacheGet hc
        rw [hf] at hf2
        simp only [Except.ok.injEq, Prod.mk.injEq] at hf2
        rw [hopin] at hf2
        cases hf2.2
      | inr hhalt =>
        obtain ⟨hop, hqh⟩ := hhalt
        subst hop
        subst hqh
        intro hhq
        show cacheGet q0.instructions q0.ip = some .Halt
        rw [f2, f7]

theorem run_inv : ∀ (fuel : Nat) {p q : Program},
    HaltInv p → p.run fuel = .ok q → HaltInv q := by
  intro fuel
  induction fuel with
  | zero => intro p q hi h; simp [Program.run] at h
  | succ n ih =>
    intro p q hi h
    simp only [Program.run] at h
    cases hs : p.step with
    | error e => rw [hs] at h; simp at h
    | ok r =>
      rw [hs] at h
      cases r with
      | next q1 =>
        simp only [] at h
        exact ih ((step_inv hi hs).1 q1 rfl) h
      | brk q1 =>
        simp only [] at h
        cases h
        exact (step_inv hi hs).2 _ rfl

theorem halted_run_noop {p : Program} (hi : HaltInv p) (hh : p.halted = true)
    (fuel : Nat) : p.run (fuel + 1) = .ok p := by
  have hc := hi hh
  have hstep : p.step = .ok (.brk p) := by
    unfold Program.step
    rw [fetch_of_cacheGet hc]
    simp only [bind, Except.bind, Program.exec, Except.ok.injEq]
    rw [set_halted_eta hh]
  simp only [Program.run, hstep]

theorem reachable_inv {p : Program} (h : Reachable p) : HaltInv p := by
  induction h with
  | init mem => intro hh; simp [Program.fromMemory] at hh
  | push p v h ih => exact fun hh => ih hh
  | run p fuel q h hrun ih => exact run_inv fuel ih hrun

/-! ### Claim theorems for the day09 VM -/

set_option maxRecDepth 40000

/-- C5: Halted is terminal.  For every reachable Program whose halt flag has
become true, any further run call with positive fuel is a no-op: it returns
the very same state, so instruction pointer, memory, relative base, input
queue, output queue and the halt flag are all unchanged. -/
theorem halted_terminal (p : Program) (hr : Reachable p) (hh : p.halted = true)
    (fuel : Nat) (hf : 0 < fuel) : p.run fuel = .ok p := by
  obtain ⟨n, rfl⟩ : ∃ n, fuel = n + 1 := ⟨fuel - 1, by omega⟩
  exact halted_run_noop (reachable_inv hr) hh n

/-- The state reached by running the program [99] to its halt. -/
def pHalt99 : Program :=
  { ip := 0, memory := [99], instructions := [(0, .Halt)], input := [],
    output := [], halted := true, relative_base := 0 }

/-- Witness for C5 at the halted state of the program [99]. -/
theorem halted_terminal_witness : pHalt99.run 1 = .ok pHalt99 :=
  halted_terminal pHalt99
    (Reachable.run (Program.fromMemory [99]) 1 pHalt99
      (Reachable.init [99]) (by decide))
    (by decide) 1 (by decide)

/-- C2 (code bug): the bounds guard of read and write is strict
(address > len), so an access at an address exactly equal to the current
memory length is not grown but panics with an index-out-of-bounds, while an
address strictly beyond the length is transparently grown and succeeds. -/
theorem boundary_access_panics :
    (Program.fromMemory [99]).read 1 = .error (.indexOOB 1) ∧
    (Program.fromMemory [99]).write 1 5 = .error (.indexOOB 1) ∧
    ∃ q : Program, (Program.fromMemory [99]).read 2 = .ok (q, 0) := by
  refine ⟨by decide, by decide,
    ⟨{ Program.fromMemory [99] with memory := 99 :: List.replicate 1001 0 },
     by decide⟩⟩

/-- C3: input suspension.  If the fetched instruction is an In, then with an
empty input queue run returns immediately with the fetched state — same
instruction pointer, memory, input, output, halt flag and relative base —
and with input available the same In pops the head of the queue (FIFO),
writes it to the destination and advances the pointer by exactly 2. -/
theorem input_suspension (p q : Program) (dest : Mode)
    (hf : p.fetch = .ok (q, .In dest)) :
    (q.ip = p.ip ∧ q.memory = p.memory ∧ q.input = p.input ∧
     q.output = p.output ∧ q.halted = p.halted ∧
     q.relative_base = p.relative_base) ∧
    (p.input = [] → ∀ fuel, p.run (fuel + 1) = .ok q) ∧
    (∀ v rest d w, p.input = v :: rest → q.destAddr dest = .ok d →
      Program.write { q with input := rest } d v = .ok w →
      p.step = .ok (.next { w with ip := p.ip + 2 })) := by
  obtain ⟨f1, f2, f3, f4, f5, f6, f7⟩ := fetch_spec hf
  refine ⟨⟨f2, f1, f3, f4, f5, f6⟩, ?_, ?_⟩
  · intro hin fuel
    have hqin : q.input = [] := by rw [f3]; exact hin
    have hstep : p.step = .ok (.brk q) := by
      unfold Program.step
      rw [hf]
      simp only [bind, Except.bind, Program.exec, Program.read_input]
      rw [hqin]
    simp only [Program.run, hstep]
  · intro v rest d w hin hd hw
    have hqin : q.input = v :: rest := by rw [f3]; exact hin
    have hri : q.read_input = some (v, { q with input := rest }) := by
      unfold Program.read_input
      rw [hqin]
    have hd2 : Program.destAddr { q with input := rest } dest = .ok d := by
      cases dest <;> exact hd
    have hip : w.ip = p.ip := (write_spec hw).1.trans f2
    unfold Program.step
    rw [hf]
    simp only [bind, Except.bind, Program.exec]
    rw [hri]
    simp only []
    rw [hd2]
    simp only [bind, Except.bind]
    rw [hw]
    simp only [bind, Except.bind]
    rw [hip]

/-- A Program suspended at a cached In instruction with no input. -/
def pSusp : Program :=
  { ip := 0, memory := [3, 5, 99, 0, 0, 0],
    instructions := [(0, .In (.Positional 5))], input := [], output := [],
    halted := false, relative_base := 0 }

/-- The same Program with one queued input value. -/
def pInFed : Program :=
  { ip := 0, memory := [3, 5, 99, 0, 0, 0],
    instructions := [(0, .In (.Positional 5))], input := [7], output := [],
    halted := false, relative_base := 0 }

/-- pInFed after its In has consumed the value 7 (before the pointer bump). -/
def pInWr : Program :=
  { ip := 0, memory := [3, 5, 99, 0, 0, 7],
    instructions := [(0, .In (.Positional 5))], input := [], output := [],
    halted := false, relative_base := 0 }

/-- Witness for C3: the starved In suspends unchanged; the fed In pops 7,
writes it to address 5 and advances the pointer by 2. -/
theorem input_suspension_witness :
    pSusp.run 1 = .ok pSusp ∧
    pInFed.step = .ok (.next { pInWr with ip := pInFed.ip + 2 }) :=
  ⟨(input_suspension pSusp pSusp (.Positional 5) (by decide)).2.1 rfl 0,
   (input_suspension pInFed pInFed (.Positional 5) (by decide)).2.2
     7 [] 5 pInWr rfl (by decide) (by decide)⟩

/-- C6 counterexample: the terminal decode error is reported with the
offending address only, never with the raw value — the programs [13] and
[42] carry different raw values at address 0 yet panic with the identical
error, so the raw value is no part of the report (the code's panic message
formats only the instruction pointer; its unknown-opcode log line is
compiled out at LOGLEVEL 0 and would print the reduced low-two-digit opcode,
not the raw value). -/
theorem decode_error_no_raw_value_cx :
    (Program.fromMemory [13]).run 1 = .panic (.liftFail 0) ∧
    (Program.fromMemory [42]).run 1 = .panic (.liftFail 0) :=
  ⟨by decide, by decide⟩

/-- C6 (amended): decode failure.  For any value at the instruction pointer
whose low two decimal digits are none of 1..9, 99, lift signals the unknown
opcode by returning successfully with no instruction — state unchanged,
rather than crashing the caller — and run terminates that run with the
liftFail panic that reports the offending address (only; the raw value is
not part of the report). -/
theorem decode_error_terminal (p : Program) (v : Int)
    (hm : p.memory.get? p.ip = some v)
    (hc : cacheGet p.instructions p.ip = none)
    (hunk : ((v.tmod 10000).tmod 1000).tmod 100 ∉
      ([1, 2, 3, 4, 5, 6, 7, 8, 9, 99] : List Int)) :
    p.lift p.ip = .ok (p, none) ∧
    ∀ fuel, p.run (fuel + 1) = .panic (.liftFail p.ip) := by
  simp only [List.mem_cons, List.not_mem_nil, or_false, not_or] at hunk
  obtain ⟨n1, n2, n3, n4, n5, n6, n7, n8, n9, n99⟩ := hunk
  have hlift : p.lift p.ip = .ok (p, none) := by
    unfold Program.lift
    rw [hm]
    simp only []
    rw [if_neg (by tauto), if_neg (by tauto), if_neg (by tauto),
        if_neg (by tauto)]
  refine ⟨hlift, ?_⟩
  intro fuel
  have hstep : p.step = .error (.liftFail p.ip) := by
    unfold Program.step Program.fetch
    rw [hc, hlift]
    simp [bind, Except.bind]
  simp only [Program.run, hstep]

/-- Witness for C6 at the program [0] (opcode 0 is unknown). -/
theorem decode_error_terminal_witness :
    (Program.fromMemory [0]).lift 0 = .ok (Program.fromMemory [0], none) ∧
    (Program.fromMemory [0]).run 1 = .panic (.liftFail 0) :=
  ⟨(decode_error_terminal (Program.fromMemory [0]) 0 (by decide) (by decide)
      (by decide)).1,
   (decode_error_terminal (Program.fromMemory [0]) 0 (by decide) (by decide)
      (by decide)).2 0⟩

/-- Is a mode the Immediate mode? -/
def Mode.isImm : Mode → Bool
  | .Immediate _ => true
  | _ => false

/-- Instructions whose destination operand (the written one) is in Immediate
mode: Add, Mul, LessThan, Equals (third operand) and In (only operand). -/
def Opcode.hasImmDest : Opcode → Bool
  | .Add _ _ d => d.isImm
  | .Mul _ _ d => d.isImm
  | .LessThan _ _ d => d.isImm
  | .Equals _ _ d => d.isImm
  | .In d => d.isImm
  | _ => false

/-- C7: an Immediate-mode destination is fatal.  Whenever the instruction at
the pointer is an Add, Mul, LessThan, Equals or In whose destination operand
is Immediate (and, for In, input is available so the instruction actually
executes), the run aborts with a panic — the write is never silently ignored. -/
theorem imm_dest_fatal (p : Program) (op : Opcode)
    (hc : cacheGet p.instructions p.ip = some op)
    (hid : op.hasImmDest = true)
    (hin : ∀ m, op = .In m → p.input ≠ []) :
    ∀ fuel, ∃ e, p.run (fuel + 1) = .panic e := by
  intro fuel
  have hse : p.step = p.exec op := by
    unfold Program.step
    rw [fetch_of_cacheGet hc]
    rfl
  have hstep : ∃ e, p.exec op = .error e := by
    cases op with
    | Add m1 m2 md =>
      cases md with
      | Positional a => simp [Opcode.hasImmDest, Mode.isImm] at hid
      | Relative r => simp [Opcode.hasImmDest, Mode.isImm] at hid
      | Immediate i =>
        cases r1 : p.resolve m1 with
        | error e =>
          refine ⟨e, ?_⟩
          simp only [Program.exec]
          rw [r1]
          simp [bind, Except.bind]
        | ok x1 =>
          obtain ⟨p1, v1⟩ := x1
          cases r2 : p1.resolve m2 with
          | error e =>
            refine ⟨e, ?_⟩
            simp only [Program.exec]
            rw [r1]
            simp only [bind, Except.bind]
            rw [r2]
          | ok x2 =>
            obtain ⟨p2, v2⟩ := x2
            refine ⟨.immDest, ?_⟩
            simp only [Program.exec]
            rw [r1]
            simp only [bind, Except.bind]
            rw [r2]
            simp [Program.destAddr, bind, Except.bind]
    | Mul m1 m2 md =>
      cases md with
      | Positional a => simp [Opcode.hasImmDest, Mode.isImm] at hid
      | Relative r => simp [Opcode.hasImmDest, Mode.isImm] at hid
      | Immediate i =>
        cases r1 : p.resolve m1 with
        | error e =>
          refine ⟨e, ?_⟩
          simp only [Program.exec]
          rw [r1]
          simp [bind, Except.bind]
        | ok x1 =>
          obtain ⟨p1, v1⟩ := x1
          cases r2 : p1.resolve m2 with
          | error e =>
            refine ⟨e, ?_⟩
            simp only [Program.exec]
            rw [r1]
            simp only [bind, Except.bind]
            rw [r2]
          | ok x2 =>
            obtain ⟨p2, v2⟩ := x2
            refine ⟨.immDest, ?_⟩
            simp only [Program.exec]
            rw [r1]
            simp only [bind, Except.bind]
            rw [r2]
            simp [Program.destAddr, bind, Except.bind]
    | LessThan m1 m2 md =>
      cases md with
      | Positional a => simp [Opcode.hasImmDest, Mode.isImm] at hid
      | Relative r => simp [Opcode.hasImmDest, Mode.isImm] at hid
      | Immediate i =>
        cases r1 : p.resolve m1 with
        | error e =>
          refine ⟨e, ?_⟩
          simp only [Program.exec]
          rw [r1]
          simp [bind, Except.bind]
        | ok x1 =>
          obtain ⟨p1, v1⟩ := x1
          cases r2 : p1.resolve m2 with
          | error e =>
            refine ⟨e, ?_⟩
            simp only [Program.exec]
            rw [r1]
            simp only [bind, Except.bind]
            rw [r2]
          | ok x2 =>
            obtain ⟨p2, v2⟩ := x2
            refine ⟨.immDest, ?_⟩
            simp only [Program.exec]
            rw [r1]
            simp only [bind, Except.bind]
            rw [r2]
            simp [Program.destAddr, bind, Except.bind]
    | Equals m1 m2 md =>
      cases md with
      | Positional a => simp [Opcode.hasImmDest, Mode.isImm] at hid
      | Relative r => simp [Opcode.hasImmDest, Mode.isImm] at hid
      | Immediate i =>
        cases r1 : p.resolve m1 with
        | error e =>
          refine ⟨e, ?_⟩
          simp only [Program.exec]
          rw [r1]
          simp [bind, Except.bind]
        | ok x1 =>
          obtain ⟨p1, v1⟩ := x1
          cases r2 : p1.resolve m2 with
          | error e =>
            refine ⟨e, ?_⟩
            simp only [Program.exec]
            rw [r1]
            simp only [bind, Except.bind]
            rw [r2]
          | ok x2 =>
            obtain ⟨p2, v2⟩ := x2
            refine ⟨.immDest, ?_⟩
            simp only [Program.exec]
            rw [r1]
            simp only [bind, Except.bind]
            rw [r2]
            simp [Program.destAddr, bind, Except.bind]
    | In md =>
      cases md with
      | Positional a => simp [Opcode.hasImmDest, Mode.isImm] at hid
      | Relative r => simp [Opcode.hasImmDest, Mode.isImm] at hid
      | Immediate i =>
        cases hpin : p.input with
        | nil => exact absurd hpin (hin (.Immediate i) rfl)
        | cons v rest =>
          refine ⟨.immDest, ?_⟩
          simp only [Program.exec, Program.read_input]
          rw [hpin]
          simp [Program.destAddr, bind, Except.bind]
    | Out m1 => simp [Opcode.hasImmDest] at hid
    | JumpNonZero m1 m2 => simp [Opcode.hasImmDest] at hid
    | JumpZero m1 m2 => simp [Opcode.hasImmDest] at hid
    | AdjustRelativeBase m1 => simp [Opcode.hasImmDest] at hid
    | Halt => simp [Opcode.hasImmDest] at hid
  obtain ⟨e, he⟩ := hstep
  refine ⟨e, ?_⟩
  have hs2 : p.step = .error e := hse.trans he
  simp only [Program.run, hs2]

/-- A Program whose cached instruction has an Immediate destination. -/
def pImmDest : Program :=
  { ip := 0, memory := [],
    instructions := [(0, .Add (.Immediate 1) (.Immediate 2) (.Immediate 3))],
    input := [], output := [], halted := false, relative_base := 0 }

/-- Witness for C7: executing an Add with Immediate destination panics. -/
theorem imm_dest_fatal_witness : ∃ e, pImmDest.run 1 = .panic e :=
  imm_dest_fatal pImmDest (.Add (.Immediate 1) (.Immediate 2) (.Immediate 3))
    (by decide) (by decide) (fun m hm => Opcode.noConfusion hm) 0

/-- C10 (amended): lift never changes memory at all — nor any other field
except the instruction cache.  The growth path of read is unreachable from
lift: operand cells are consecutive, so the first out-of-bounds cell sits at
exactly the current length, where the strict resize guard does not fire and
the index panics before any growth. -/
theorem lift_preserves_memory (p : Program) (a : Nat) (q : Program)
    (r : Option Opcode) (h : p.lift a = .ok (q, r)) :
    q.memory = p.memory ∧ q.ip = p.ip ∧ q.input = p.input ∧
    q.output = p.output ∧ q.halted = p.halted ∧
    q.relative_base = p.relative_base := by
  obtain ⟨l1, l2, l3, l4, l5, l6, -, -, -⟩ := lift_spec h
  exact ⟨l1, l2, l3, l4, l5, l6⟩

/-- C10 counterexample: an operand cell beyond the current memory length does
not make lift grow the memory — the decode panics with an index error at the
boundary cell (program [4]: an Out whose operand cell 1 does not exist). -/
theorem lift_boundary_cx :
    (Program.fromMemory [4]).lift 0 = .error (.indexOOB 1) := by decide

/-- The result state of lifting the Add at address 0 of [1101, 2, 3, 5]. -/
def pLifted : Program :=
  { ip := 0, memory := [1101, 2, 3, 5],
    instructions := [(0, .Add (.Immediate 2) (.Immediate 3) (.Positional 5))],
    input := [], output := [], halted := false, relative_base := 0 }

/-- Witness for the amended C10 at the program [1101, 2, 3, 5]. -/
theorem lift_preserves_memory_witness :
    pLifted.memory = (Program.fromMemory [1101, 2, 3, 5]).memory ∧
    pLifted.ip = (Program.fromMemory [1101, 2, 3, 5]).ip ∧
    pLifted.input = (Program.fromMemory [1101, 2, 3, 5]).input ∧
    pLifted.output = (Program.fromMemory [1101, 2, 3, 5]).output ∧
    pLifted.halted = (Program.fromMemory [1101, 2, 3, 5]).halted ∧
    pLifted.relative_base = (Program.fromMemory [1101, 2, 3, 5]).relative_base :=
  lift_preserves_memory (Program.fromMemory [1101, 2, 3, 5]) 0 pLifted
    (some (.Add (.Immediate 2) (.Immediate 3) (.Positional 5))) (by decide)

/-- The state after lifting the Out of [4, -1]: the negative operand -1 has
been cast to the large address 2^64 - 1. -/
def pOutNeg : Program :=
  { ip := 0, memory := [4, -1],
    instructions := [(0, .Out (.Positional 18446744073709551615))],
    input := [], output := [], halted := false, relative_base := 0 }

/-- C4 counterexample: the negative Positional operand -1 is not rejected
with an out-of-range condition — it is silently wrapped by the "as usize"
cast into the large nonnegative address 2^64 - 1 = 18446744073709551615, and
the run then panics in Vec::resize at that wrapped address. -/
theorem negative_address_wrap_cx :
    (Program.fromMemory [4, -1]).lift 0 =
      .ok (pOutNeg, some (.Out (.Positional 18446744073709551615))) ∧
    (Program.fromMemory [4, -1]).run 1 =
      .panic (.capOverflow 18446744073709551615) := ⟨by decide, by decide⟩

/-- C4 (amended): a negative raw operand in Positional mode is wrapped by the
two's-complement cast into the large nonnegative address raw + 2^64 (at least
2^63); the subsequent read or write at that wrapped address fails — with a
resize/capacity panic, not with a negative-address range check. -/
theorem negative_operand_wraps (raw : Int) (p : Program)
    (h1 : raw < 0) (h2 : -(2 ^ 63) ≤ raw)
    (hlen : p.memory.length < 2 ^ 60) :
    decodeMode 0 raw = .ok (.Positional (raw + 2 ^ 64).toNat) ∧
    2 ^ 63 ≤ (raw + 2 ^ 64).toNat ∧
    p.read (raw + 2 ^ 64).toNat =
      .error (.capOverflow (raw + 2 ^ 64).toNat) ∧
    p.writeMem (raw + 2 ^ 64).toNat 0 =
      .error (.capOverflow (raw + 2 ^ 64).toNat) := by
  have hval : asUsize raw = (raw + 2 ^ 64).toNat := by
    unfold asUsize
    have hmod : raw % (2 ^ 64) = raw + 2 ^ 64 := by omega
    rw [hmod]
  have hbig : 2 ^ 63 ≤ (raw + 2 ^ 64).toNat := by omega
  have hgt : (raw + 2 ^ 64).toNat > p.memory.length := by omega
  have hcap : ¬ ((raw + 2 ^ 64).toNat + 1000 < 2 ^ 60) := by omega
  have hgrow : p.grow (raw + 2 ^ 64).toNat =
      .error (.capOverflow (raw + 2 ^ 64).toNat) := by
    unfold Program.grow
    rw [if_pos hgt, if_neg hcap]
  refine ⟨?_, hbig, ?_, ?_⟩
  · unfold decodeMode
    rw [if_pos rfl, hval]
  · unfold Program.read
    rw [hgrow]
    rfl
  · unfold Program.writeMem
    rw [hgrow]
    rfl

/-- Witness for the amended C4 at raw value -1 on the program [99]. -/
theorem negative_operand_wraps_witness :
    decodeMode 0 (-1) = .ok (.Positional ((-1 : Int) + 2 ^ 64).toNat) ∧
    2 ^ 63 ≤ ((-1 : Int) + 2 ^ 64).toNat ∧
    (Program.fromMemory [99]).read ((-1 : Int) + 2 ^ 64).toNat =
      .error (.capOverflow ((-1 : Int) + 2 ^ 64).toNat) ∧
    (Program.fromMemory [99]).writeMem ((-1 : Int) + 2 ^ 64).toNat 0 =
      .error (.capOverflow ((-1 : Int) + 2 ^ 64).toNat) :=
  negative_operand_wraps (-1) (Program.fromMemory [99]) (by decide) (by decide)
    (by decide)

/-- The final state of running [1105, 1, 2, 0, 0, 2, 99]: the jump at 0 and
the Mul at 2 have overlapping cached spans; the Mul writes 1105 * 1105 into
address 2, which lies in both spans, but only the first-found entry (the jump
at 0) is re-decoded — the Mul entry at 2 survives although address 2 no longer
decodes to any instruction. -/
def pStale : Program :=
  { ip := 6, memory := [1105, 1, 1221025, 0, 0, 2, 99],
    instructions :=
      [(0, .JumpNonZero (.Immediate 1) (.Immediate 1221025)),
       (2, .Mul (.Positional 0) (.Positional 0) (.Positional 2)),
       (6, .Halt)],
    input := [], output := [], halted := true, relative_base := 0 }

/-- C1 counterexample: a reachable run in which a write lands in the spans of
two cached instructions; afterwards the cache still holds the entry at
address 2 even though the current memory at 2 decodes to no instruction —
a stale entry, contradicting the claim that after every write each cache
entry is absent or equal to the current decoding. -/
theorem cache_stale_after_overlapping_write :
    (Program.fromMemory [1105, 1, 2, 0, 0, 2, 99]).run 10 = .ok pStale ∧
    cacheGet pStale.instructions 2 =
      some (.Mul (.Positional 0) (.Positional 0) (.Positional 2)) ∧
    pStale.lift 2 = .ok (pStale, none) :=
  ⟨by decide, by decide, by decide⟩

/-- C1 (amended): on every write the scan re-decodes at most one cached
entry — the first one found whose span contains the written address; that
entry ends up mapped to the fresh decode r (replaced when the new bytes still
decode, absent when they do not), every other cache address is left exactly
as it was, and the memory is that of the plain store. -/
theorem write_refreshes_first_overlap_only (p : Program) (a : Nat) (v : Int)
    (p1 p2 : Program) (start : Nat) (r : Option Opcode)
    (h1 : p.writeMem a v = .ok p1)
    (h2 : cacheScan p1.instructions a = some start)
    (h3 : p1.lift start = .ok (p2, r)) :
    ∃ q, p.write a v = .ok q ∧ q.memory = p1.memory ∧
      cacheGet q.instructions start = r ∧
      (∀ s, s ≠ start → cacheGet q.instructions s = cacheGet p1.instructions s) := by
  obtain ⟨l1, -, -, -, -, -, l7, -, l9⟩ := lift_spec h3
  have hw : ∀ q2, (match r with
      | some op =>
        Except.ok { p2 with instructions := cacheIns p2.instructions start op }
      | none =>
        Except.ok { p2 with instructions := cacheRemove p2.instructions start })
        = Except.ok (ε := VMErr) q2 →
      p.write a v = .ok q2 := by
    intro q2 hq2
    unfold Program.write
    rw [h1]
    simp only [bind, Except.bind]
    rw [h2]
    simp only []
    rw [h3]
    simp only [bind, Except.bind]
    exact hq2
  cases r with
  | some op =>
    refine ⟨{ p2 with instructions := cacheIns p2.instructions start op },
      hw _ rfl, l1, ?_, ?_⟩
    · exact cacheGet_cacheIns_self _ _ _
    · intro s hs
      show cacheGet (cacheIns p2.instructions start op) s
        = cacheGet p1.instructions s
      rw [cacheGet_cacheIns_ne _ _ _ _ hs]
      exact l7 s hs
  | none =>
    refine ⟨{ p2 with instructions := cacheRemove p2.instructions start },
      hw _ rfl, l1, ?_, ?_⟩
    · exact cacheGet_cacheRemove_self _ _
    · intro s hs
      show cacheGet (cacheRemove p2.instructions start) s
        = cacheGet p1.instructions s
      rw [cacheGet_cacheRemove_ne _ _ _ hs]
      exact l7 s hs

/-- A Program with one cached Add spanning [0, 4). -/
def pWr : Program :=
  { ip := 0, memory := [1, 0, 0, 0],
    instructions := [(0, .Add (.Positional 0) (.Positional 0) (.Positional 0))],
    input := [], output := [], halted := false, relative_base := 0 }

/-- pWr after the raw store of 5 into address 3. -/
def pWr1 : Program :=
  { ip := 0, memory := [1, 0, 0, 5],
    instructions := [(0, .Add (.Positional 0) (.Positional 0) (.Positional 0))],
    input := [], output := [], halted := false, relative_base := 0 }

/-- pWr1 after re-lifting address 0 (the write changed the Add's operand). -/
def pWr2 : Program :=
  { ip := 0, memory := [1, 0, 0, 5],
    instructions := [(0, .Add (.Positional 0) (.Positional 0) (.Positional 5))],
    input := [], output := [], halted := false, relative_base := 0 }

/-- Witness for the amended C1: writing 5 at address 3 (inside the cached
span [0, 4)) re-decodes the entry at 0 to the refreshed Add. -/
theorem write_refreshes_first_overlap_only_witness :
    ∃ q, pWr.write 3 5 = .ok q ∧ q.memory = pWr1.memory ∧
      cacheGet q.instructions 0 =
        some (.Add (.Positional 0) (.Positional 0) (.Positional 5)) ∧
      (∀ s, s ≠ 0 → cacheGet q.instructions s = cacheGet pWr1.instructions s) :=
  write_refreshes_first_overlap_only pWr 3 5 pWr1 pWr2 0
    (some (.Add (.Positional 0) (.Positional 0) (.Positional 5)))
    (by decide) (by decide) (by decide)

end Day09

namespace Day07

/-- Lifted instructions of day07 (enum Opcode): one constructor per opcode
and addressing-mode combination, A = address (position), I = immediate. -/
inductive Opcode where
  | AddAAA (p1 p2 p3 : Nat)
  | AddAIA (p1 : Nat) (p2 : Int) (p3 : Nat)
  | AddIAA (p1 : Int) (p2 p3 : Nat)
  | AddIIA (p1 p2 : Int) (p3 : Nat)
  | MulAAA (p1 p2 p3 : Nat)
  | MulAIA (p1 : Nat) (p2 : Int) (p3 : Nat)
  | MulIAA (p1 : Int) (p2 p3 : Nat)
  | MulIIA (p1 p2 : Int) (p3 : Nat)
  | InA (p1 : Nat)
  | OutA (p1 : Nat)
  | OutI (p1 : Int)
  | JumpNonZeroAI (p1 : Nat) (p2 : Int)
  | JumpNonZeroII (p1 p2 : Int)
  | JumpNonZeroIA (p1 : Int) (p2 : Nat)
  | JumpNonZeroAA (p1 p2 : Nat)
  | JumpZeroAI (p1 : Nat) (p2 : Int)
  | JumpZeroII (p1 p2 : Int)
  | JumpZeroIA (p1 : Int) (p2 : Nat)
  | JumpZeroAA (p1 p2 : Nat)
  | LessThanAAA (p1 p2 p3 : Nat)
  | LessThanAIA (p1 : Nat) (p2 : Int) (p3 : Nat)
  | LessThanIAA (p1 : Int) (p2 p3 : Nat)
  | LessThanIIA (p1 p2 : Int) (p3 : Nat)
  | EqualsAAA (p1 p2 p3 : Nat)
  | EqualsAIA (p1 : Nat) (p2 : Int) (p3 : Nat)
  | EqualsIAA (p1 : Int) (p2 p3 : Nat)
  | EqualsIIA (p1 p2 : Int) (p3 : Nat)
  | Halt
deriving DecidableEq, Repr

/-- Opcode::len of day07. -/
def Opcode.len : Opcode → Nat
  | .InA _ | .OutA _ | .OutI _ => 2
  | .JumpNonZeroAI _ _ | .JumpNonZeroII _ _ | .JumpNonZeroIA _ _
  | .JumpNonZeroAA _ _ | .JumpZeroAI _ _ | .JumpZeroII _ _
  | .JumpZeroIA _ _ | .JumpZeroAA _ _ => 3
  | .LessThanAAA _ _ _ | .LessThanAIA _ _ _ | .LessThanIAA _ _ _
  | .LessThanIIA _ _ _ | .EqualsAAA _ _ _ | .EqualsAIA _ _ _
  | .EqualsIAA _ _ _ | .EqualsIIA _ _ _ | .AddAAA _ _ _ | .AddAIA _ _ _
  | .AddIAA _ _ _ | .AddIIA _ _ _ | .MulAAA _ _ _ | .MulAIA _ _ _
  | .MulIAA _ _ _ | .MulIIA _ _ _ => 4
  | .Halt => 1

/-- Errors: each constructor models one Rust panic site of day07. -/
inductive VMErr where
  /-- Vec index out of bounds (memory[address] with address = len). -/
  | indexOOB (addr : Nat)
  /-- a failed assert (address <= len in read/write, param3 >= 0 / dest >= 0
  in lift). -/
  | assertFail
  /-- panic in run: "Failed to lift addr at ip" (unknown opcode). -/
  | liftFail (addr : Nat)
  /-- panic in lift: "Read an opcode for immediate in destination". -/
  | immDest
  /-- the unreachable arm hit by opcode 103 in lift's In/Out branch. -/
  | badMode
deriving DecidableEq, Repr

/-- struct Program of day07 (no relative base).  As for day09, the HashMap
cache is an association list iterated in insertion order. -/
structure Program where
  ip : Nat
  memory : List Int
  instructions : List (Nat × Opcode)
  input : List Int
  output : List Int
  halted : Bool
deriving DecidableEq, Repr

/-- Program::from_input after parsing. -/
def Program.fromMemory (memory : List Int) : Program :=
  { ip := 0, memory := memory, instructions := [], input := [], output := [],
    halted := false }

/-- HashMap::get on the day07 cache model. -/
def cacheGet : List (Nat × Opcode) → Nat → Option Opcode
  | [], _ => none
  | (a, w) :: rest, k => if a = k then some w else cacheGet rest k

/-- HashMap::insert on the day07 cache model. -/
def cacheIns : List (Nat × Opcode) → Nat → Opcode → List (Nat × Opcode)
  | [], k, v => [(k, v)]
  | (a, w) :: rest, k, v =>
    if a = k then (k, v) :: rest else (a, w) :: cacheIns rest k v

/-- HashMap::remove on the day07 cache model. -/
def cacheRemove : List (Nat × Opcode) → Nat → List (Nat × Opcode)
  | [], _ => []
  | (a, w) :: rest, k =>
    if a = k then cacheRemove rest k else (a, w) :: cacheRemove rest k

/-- The first-hit cache scan of day07's Program::write. -/
def cacheScan : List (Nat × Opcode) → Nat → Option Nat
  | [], _ => none
  | (start, op) :: rest, address =>
    if start ≤ address ∧ address < start + op.len then some start
    else cacheScan rest address

/-- Program::read of day07: assert!(address <= len) then index — no growth in
this VM; an address equal to the length passes the assert but the index
panics. -/
def Program.read (p : Program) (address : Nat) : Except VMErr Int :=
  if address > p.memory.length then .error .assertFail
  else match p.memory.get? address with
    | some v => .ok v
    | none => .error (.indexOOB address)

/-- Program::read_input of day07. -/
def Program.read_input (p : Program) : Option (Int × Program) :=
  match p.input with
  | [] => none
  | v :: rest => some (v, { p with input := rest })

/-- Program::write_output of day07. -/
def Program.write_output (p : Program) (v : Int) : Program :=
  { p with output := p.output ++ [v] }

/-- Program::lift of day07: dispatch on the raw opcode literal (leading zeros
in the Rust match arms are just decimal notation for the same values); the
three-parameter arithmetic opcodes assert a nonnegative destination, the
In/Out arm also asserts nonnegativity and hits unreachable code for 103, the
immediate-destination opcodes panic, anything else is reported as unknown.
"as usize" casts are the wrapping asUsize. -/
def Program.lift (p : Program) (addr : Nat) :
    Except VMErr (Program × Option Opcode) :=
  match p.memory.get? addr with
  | none => .error (.indexOOB addr)
  | some v =>
    if v = 1 ∨ v = 1001 ∨ v = 101 ∨ v = 1101 ∨
       v = 2 ∨ v = 1002 ∨ v = 102 ∨ v = 1102 ∨
       v = 7 ∨ v = 107 ∨ v = 1007 ∨ v = 1107 ∨
       v = 8 ∨ v = 108 ∨ v = 1008 ∨ v = 1108 then do
      let param1 ← p.read (addr + 1)
      let param2 ← p.read (addr + 2)
      let param3 ← p.read (addr + 3)
      if param3 < 0 then .error .assertFail
      else
        let op : Opcode :=
          if v = 1 then .AddAAA (asUsize param1) (asUsize param2) (asUsize param3)
          else if v = 2 then .MulAAA (asUsize param1) (asUsize param2) (asUsize param3)
          else if v = 1001 then .AddAIA (asUsize param1) param2 (asUsize param3)
          else if v = 1002 then .MulAIA (asUsize param1) param2 (asUsize param3)
          else if v = 101 then .AddIAA param1 (asUsize param2) (asUsize param3)
          else if v = 102 then .MulIAA param1 (asUsize param2) (asUsize param3)
          else if v = 1101 then .AddIIA param1 param2 (asUsize param3)
          else if v = 1102 then .MulIIA param1 param2 (asUsize param3)
          else if v = 7 then .LessThanAAA (asUsize param1) (asUsize param2) (asUsize param3)
          else if v = 107 then .LessThanIAA param1 (asUsize param2) (asUsize param3)
          else if v = 1007 then .LessThanAIA (asUsize param1) param2 (asUsize param3)
          else if v = 1107 then .LessThanIIA param1 param2 (asUsize param3)
          else if v = 8 then .EqualsAAA (asUsize param1) (asUsize param2) (asUsize param3)
          else if v = 108 then .EqualsIAA param1 (asUsize param2) (asUsize param3)
          else if v = 1008 then .EqualsAIA (asUsize param1) param2 (asUsize param3)
          else .EqualsIIA param1 param2 (asUsize param3)
        .ok ({ p with instructions := cacheIns p.instructions addr op }, some op)
    else if v = 3 ∨ v = 103 ∨ v = 4 ∨ v = 104 then do
      let dest ← p.read (addr + 1)
      if dest < 0 then .error .assertFail
      else if v = 3 then
        let op : Opcode := .InA (asUsize dest)
        .ok ({ p with instructions := cacheIns p.instructions addr op }, some op)
      else if v = 4 then
        let op : Opcode := .OutA (asUsize dest)
        .ok ({ p with instructions := cacheIns p.instructions addr op }, some op)
      else if v = 104 then
        let op : Opcode := .OutI dest
        .ok ({ p with instructions := cacheIns p.instructions addr op }, some op)
      else .error .badMode
    else if v = 5 ∨ v = 105 ∨ v = 1005 ∨ v = 1105 ∨
            v = 6 ∨ v = 106 ∨ v = 1006 ∨ v = 1106 then do
      let param1 ← p.read (addr + 1)
      let param2 ← p.read (addr + 2)
      let op : Opcode :=
        if v = 5 then .JumpNonZeroAA (asUsize param1) (asUsize param2)
        else if v = 105 then .JumpNonZeroIA param1 (asUsize param2)
        else if v = 1005 then .JumpNonZeroAI (asUsize param1) param2
        else if v = 1105 then .JumpNonZeroII param1 param2
        else if v = 6 then .JumpZeroAA (asUsize param1) (asUsize param2)
        else if v = 106 then .JumpZeroIA param1 (asUsize param2)
        else if v = 1006 then .JumpZeroAI (asUsize param1) param2
        else .JumpZeroII param1 param2
      .ok ({ p with instructions := cacheIns p.instructions addr op }, some op)
    else if v = 10001 ∨ v = 10002 ∨ v = 11001 ∨ v = 11002 ∨
            v = 11101 ∨ v = 11102 ∨ v = 10101 ∨ v = 10102 then
      .error .immDest
    else if v = 99 then
      .ok ({ p with instructions := cacheIns p.instructions addr .Halt },
           some .Halt)
    else
      .ok (p, none)

/-- Program::write of day07: assert!(address <= len), store (the index panics
at address = len), then the same first-hit cache-repair scan as day09. -/
def Program.write (p : Program) (address : Nat) (value : Int) :
    Except VMErr Program :=
  if address > p.memory.length then .error .assertFail
  else if address < p.memory.length then
    let p1 : Program := { p with memory := p.memory.set address value }
    match cacheScan p1.instructions address with
    | none => .ok p1
    | some start => do
      let (p2, r) ← p1.lift start
      match r with
      | some op =>
        .ok { p2 with instructions := cacheIns p2.instructions start op }
      | none =>
        .ok { p2 with instructions := cacheRemove p2.instructions start }
  else .error (.indexOOB address)

/-- Loop-iteration outcome, as for day09. -/
inductive StepRes where
  | next (p : Program)
  | brk (p : Program)
deriving DecidableEq, Repr

/-- The fetch of day07's run. -/
def Program.fetch (p : Program) : Except VMErr (Program × Opcode) :=
  match cacheGet p.instructions p.ip with
  | some op => .ok (p, op)
  | none =>
    match p.lift p.ip with
    | .ok (q, some op) => .ok (q, op)
    | .ok (_, none) => .error (.liftFail p.ip)
    | .error e => .error e

/-- The dispatch of day07's run (one arm per opcode variant). -/
def Program.exec (p : Program) (op : Opcode) : Except VMErr StepRes :=
  match op with
  | .AddAAA a1 a2 d => do
    let v1 ← p.read a1
    let v2 ← p.read a2
    let p ← p.write d (v1 + v2)
    .ok (.next { p with ip := p.ip + 4 })
  | .AddIAA v1 a2 d => do
    let v2 ← p.read a2
    let p ← p.write d (v1 + v2)
    .ok (.next { p with ip := p.ip + 4 })
  | .AddAIA a1 v2 d => do
    let v1 ← p.read a1
    let p ← p.write d (v1 + v2)
    .ok (.next { p with ip := p.ip + 4 })
  | .AddIIA v1 v2 d => do
    let p ← p.write d (v1 + v2)
    .ok (.next { p with ip := p.ip + 4 })
  | .MulAAA a1 a2 d => do
    let v1 ← p.read a1
    let v2 ← p.read a2
    let p ← p.write d (v1 * v2)
    .ok (.next { p with ip := p.ip + 4 })
  | .MulAIA a1 v2 d => do
    let v1 ← p.read a1
    let p ← p.write d (v1 * v2)
    .ok (.next { p with ip := p.ip + 4 })
  | .MulIAA v1 a2 d => do
    let v2 ← p.read a2
    let p ← p.write d (v1 * v2)
    .ok (.next { p with ip := p.ip + 4 })
  | .MulIIA v1 v2 d => do
    let p ← p.write d (v1 * v2)
    .ok (.next { p with ip := p.ip + 4 })
  | .InA d =>
    match p.read_input with
    | none => .ok (.brk p)
    | some (v, p) => do
      let p ← p.write d v
      .ok (.next { p with ip := p.ip + 2 })
  | .OutA d => do
    let v ← p.read d
    .ok (.next { p.write_output v with ip := p.ip + 2 })
  | .OutI v =>
    .ok (.next { p.write_output v with ip := p.ip + 2 })
  | .JumpNonZeroII v1 v2 =>
    if v1 ≠ 0 then .ok (.next { p with ip := asUsize v2 })
    else .ok (.next { p with ip := p.ip + 3 })
  | .JumpNonZeroAI a1 v2 => do
    let v1 ← p.read a1
    if v1 ≠ 0 then .ok (.next { p with ip := asUsize v2 })
    else .ok (.next { p with ip := p.ip + 3 })
  | .JumpNonZeroIA v1 a2 => do
    let v2 ← p.read a2
    if v1 ≠ 0 then .ok (.next { p with ip := asUsize v2 })
    else .ok (.next { p with ip := p.ip + 3 })
  | .JumpNonZeroAA a1 a2 => do
    let v1 ← p.read a1
    let v2 ← p.read a2
    if v1 ≠ 0 then .ok (.next { p with ip := asUsize v2 })
    else .ok (.next { p with ip := p.ip + 3 })
  | .JumpZeroII v1 v2 =>
    if v1 = 0 then .ok (.next { p with ip := asUsize v2 })
    else .ok (.next { p with ip := p.ip + 3 })
  | .JumpZeroAI a1 v2 => do
    let v1 ← p.read a1
    if v1 = 0 then .ok (.next { p with ip := asUsize v2 })
    else .ok (.next { p with ip := p.ip + 3 })
  | .JumpZeroIA v1 a2 => do
    let v2 ← p.read a2
    if v1 = 0 then .ok (.next { p with ip := asUsize v2 })
    else .ok (.next { p with ip := p.ip + 3 })
  | .JumpZeroAA a1 a2 => do
    let v1 ← p.read a1
    let v2 ← p.read a2
    if v1 = 0 then .ok (.next { p with ip := asUsize v2 })
    else .ok (.next { p with ip := p.ip + 3 })
  | .LessThanAAA a1 a2 d => do
    let v1 ← p.read a1
    let v2 ← p.read a2
    let p ← p.write d (if v1 < v2 then 1 else 0)
    .ok (.next { p with ip := p.ip + 4 })
  | .LessThanIAA v1 a2 d => do
    let v2 ← p.read a2
    let p ← p.write d (if v1 < v2 then 1 else 0)
    .ok (.next { p with ip := p.ip + 4 })
  | .LessThanAIA a1 v2 d => do
    let v1 ← p.read a1
    let p ← p.write d (if v1 < v2 then 1 else 0)
    .ok (.next { p with ip := p.ip + 4 })
  | .LessThanIIA v1 v2 d => do
    let p ← p.write d (if v1 < v2 then 1 else 0)
    .ok (.next { p with ip := p.ip + 4 })
  | .EqualsAAA a1 a2 d => do
    let v1 ← p.read a1
    let v2 ← p.read a2
    let p ← p.write d (if v1 = v2 then 1 else 0)
    .ok (.next { p with ip := p.ip + 4 })
  | .EqualsIAA v1 a2 d => do
    let v2 ← p.read a2
    let p ← p.write d (if v1 = v2 then 1 else 0)
    .ok (.next { p with ip := p.ip + 4 })
  | .EqualsAIA a1 v2 d => do
    let v1 ← p.read a1
    let p ← p.write d (if v1 = v2 then 1 else 0)
    .ok (.next { p with ip := p.ip + 4 })
  | .EqualsIIA v1 v2 d => do
    let p ← p.write d (if v1 = v2 then 1 else 0)
    .ok (.next { p with ip := p.ip + 4 })
  | .Halt => .ok (.brk { p with halted := true })

/-- One iteration of day07's run loop. -/
def Program.step (p : Program) : Except VMErr StepRes := do
  let (q, op) ← p.fetch
  q.exec op

/-- Result of a call to day07's Program::run. -/
inductive RunRes where
  | ok (p : Program)
  | panic (e : VMErr)
  | timeout
deriving DecidableEq, Repr

/-- Program::run of day07 (fuel-indexed). -/
def Program.run : Program → Nat → RunRes
  | _, 0 => .timeout
  | p, fuel + 1 =>
    match p.step with
    | .error e => .panic e
    | .ok (.next q) => q.run fuel
    | .ok (.brk q) => .ok q

/-- Errors of the feedback orchestrator: a cpu panic, the output.remove(0)
panic on an empty output queue, an out-of-bounds sequence/cpu index, or model
fuel exhaustion. -/
inductive OErr where
  | vm (e : VMErr)
  | emptyOutput
  | idxOOB
  | timeout
deriving DecidableEq, Repr

/-- The loop of feedback_run: push the carried value into cpu i's input, run
it, pop the first output as the new carried value, record whether it halted,
and stop only when i = 4 and all five instances have halted (the Rust
condition is literally i == 4 && finished.iter().all(|&x| x == true)). -/
def feedbackLoop (runFuel : Nat) (sequence : List Int) :
    Nat → List Program → List Bool → Int → Nat → Except OErr Int
  | 0, _, _, _, _ => .error .timeout
  | fuel + 1, cpus, finished, prev, i =>
    match sequence.get? i with
    | none => .error .idxOOB
    | some _ =>
      match cpus.get? i with
      | none => .error .idxOOB
      | some cpu =>
        match Program.run { cpu with input := cpu.input ++ [prev] } runFuel with
        | .panic e => .error (.vm e)
        | .timeout => .error .timeout
        | .ok cpu2 =>
          match cpu2.output with
          | [] => .error .emptyOutput
          | o :: rest =>
            if i = 4 ∧ (finished.set i cpu2.halted).all (fun x => x == true) then
              .ok o
            else
              feedbackLoop runFuel sequence fuel
                (cpus.set i { cpu2 with output := rest })
                (finished.set i cpu2.halted) o ((i + 1) % 5)

/-- feedback_run of day07: five cpus from the same intcode, one phase value
pushed into each, carried value seeded with 0, round-robin from instance 0. -/
def feedback_run (outerFuel runFuel : Nat) (memory : List Int)
    (sequence : List Int) : Except OErr Int :=
  let cpus := sequence.map
    (fun s => { Program.fromMemory memory with input := [s] })
  feedbackLoop runFuel sequence outerFuel cpus (List.replicate 5 false) 0 0

end Day07

namespace Day07

set_option maxRecDepth 200000

/-- C8: the feedback-network fixture.  Five Programs built from the intcode
of day07's test_stage2_1, phases 9,8,7,6,5 one per instance, round-robin with
external seed 0: the network terminates and the final carried value is
139629729. -/
theorem feedback_fixture :
    feedback_run 60 200
      [3, 26, 1001, 26, -4, 26, 3, 27, 1002, 27, 2, 27, 1, 27, 26, 27, 4, 27,
       1001, 28, -1, 28, 1005, 28, 6, 99, 0, 0, 5]
      [9, 8, 7, 6, 5] = .ok 139629729 := by decide

/-- C9 counterexample: a five-instance network (same program per instance,
phases 2,2,2,1,1) in which instances 3 and 4 halt in the first round and the
LAST instance to halt is instance 2.  When instance 2 halts every instance
has halted, but the orchestrator's break condition (i == 4 && all finished)
does not fire at position 2: the loop advances to the already-halted
instance 3, whose run produces no output, and output.remove(0) panics — so
feedback_run does not return the carried value at the point the last
instance halts. -/
theorem feedback_last_halt_position_cx :
    feedback_run 60 200
      [3, 15, 3, 14, 4, 14, 1001, 15, -1, 15, 1005, 15, 2, 99, 0, 0]
      [2, 2, 2, 1, 1] = .error .emptyOutput := by decide

/-- C9 (amended): the orchestrator's loop does not stop when the last
instance halts — it stops exactly when the instance at position 4 finishes a
turn with all five marked halted, returning the output value popped from
instance 4 on that turn; at any other position the loop always continues,
even when every instance has already halted. -/
theorem feedback_break_rule :
    (∀ (fuel runFuel : Nat) (sequence : List Int) (cpus : List Program)
       (finished : List Bool) (prev : Int) (s : Int) (cpu cpu2 : Program)
       (o : Int) (rest : List Int),
       sequence.get? 4 = some s →
       cpus.get? 4 = some cpu →
       Program.run { cpu with input := cpu.input ++ [prev] } runFuel = .ok cpu2 →
       cpu2.output = o :: rest →
       (finished.set 4 cpu2.halted).all (fun x => x == true) = true →
       feedbackLoop runFuel sequence (fuel + 1) cpus finished prev 4 = .ok o) ∧
    (∀ (fuel runFuel : Nat) (sequence : List Int) (cpus : List Program)
       (finished : List Bool) (prev : Int) (i : Nat) (s : Int)
       (cpu cpu2 : Program) (o : Int) (rest : List Int),
       i ≠ 4 →
       sequence.get? i = some s →
       cpus.get? i = some cpu →
       Program.run { cpu with input := cpu.input ++ [prev] } runFuel = .ok cpu2 →
       cpu2.output = o :: rest →
       feedbackLoop runFuel sequence (fuel + 1) cpus finished prev i =
         feedbackLoop runFuel sequence fuel
           (cpus.set i { cpu2 with output := rest })
           (finished.set i cpu2.halted) o ((i + 1) % 5)) := by
  constructor
  · intro fuel runFuel sequence cpus finished prev s cpu cpu2 o rest
      hseq hcpu hrun hout hall
    simp only [feedbackLoop]
    rw [hseq]
    simp only []
    rw [hcpu]
    simp only []
    rw [hrun]
    simp only []
    rw [hout]
    simp only []
    rw [if_pos]
    exact ⟨by trivial, hall⟩
  · intro fuel runFuel sequence cpus finished prev i s cpu cpu2 o rest
      hi hseq hcpu hrun hout
    simp only [feedbackLoop]
    rw [hseq]
    simp only []
    rw [hcpu]
    simp only []
    rw [hrun]
    simp only []
    rw [hout]
    simp only []
    rw [if_neg (fun hc => hi hc.1)]

/-- A one-shot cpu: outputs 7 immediately, then halts. -/
def cpuW : Program :=
  { ip := 0, memory := [104, 7, 99], instructions := [], input := [],
    output := [], halted := false }

/-- cpuW after its run: output 7 produced, halted. -/
def cpuW2 : Program :=
  { ip := 2, memory := [104, 7, 99],
    instructions := [(0, .OutI 7), (2, .Halt)], input := [0], output := [7],
    halted := true }

/-- Witness for the amended C9: at position 4 with all five halted the loop
returns the popped output 7; at position 0 the loop continues even though
every instance has already halted. -/
theorem feedback_break_rule_witness :
    feedbackLoop 10 [0, 0, 0, 0, 0] 1 [cpuW, cpuW, cpuW, cpuW, cpuW]
      [true, true, true, true, false] 0 4 = .ok 7 ∧
    feedbackLoop 10 [0, 0, 0, 0, 0] 1 [cpuW, cpuW, cpuW, cpuW, cpuW]
      [true, true, true, true, true] 0 0 =
      feedbackLoop 10 [0, 0, 0, 0, 0] 0
        ([cpuW, cpuW, cpuW, cpuW, cpuW].set 0 { cpuW2 with output := [] })
        ([true, true, true, true, true].set 0 cpuW2.halted) 7 ((0 + 1) % 5) :=
  ⟨feedback_break_rule.1 0 10 [0, 0, 0, 0, 0] [cpuW, cpuW, cpuW, cpuW, cpuW]
      [true, true, true, true, false] 0 0 cpuW cpuW2 7 []
      (by decide) (by decide) (by decide) (by decide) (by decide),
   feedback_break_rule.2 0 10 [0, 0, 0, 0, 0] [cpuW, cpuW, cpuW, cpuW, cpuW]
      [true, true, true, true, true] 0 0 0 cpuW cpuW2 7 []
      (by decide) (by decide) (by decide) (by decide) (by decide)⟩

end Day07
